import Mathlib

/-!
Verification of the srs shared-resources library
(include/shared_resources/shared_resources.hpp).

The library is a compile-time heterogeneous container: a type_list of
pairwise-distinct kinds, set algebra over such lists, a recursive storage
keyed by kind, an owning facade (shared_resources) and an aliasing facade
(shared_references).

Shallow embedding: a C++ kind (a type used as a tag) is a natural number,
a stored value is a natural number, and a storage over type_list of kinds
K0..Kn is the association list of its slots in declaration order.  Every
template recursion of the header is transcribed as a Lean recursion of the
same shape.  The requires-clauses (concepts) of the header are transcribed
as Boolean predicates; a constructor body is a total function which is
faithful under the corresponding predicate, exactly as the C++ body is
only instantiated when its constraint holds.
-/

set_option autoImplicit false

namespace Srs

/-- A C++ kind (type tag) is modelled as a natural number. -/
abbrev Kind := Nat

/-- A stored value is modelled as a natural number. -/
abbrev Value := Nat

/-- The storage for a type_list of kinds: its chain of slots, one pair
(kind, value) per kind, in list order.  Mirrors internals::storage. -/
abbrev Storage := List (Kind × Value)

/-- Heap for the aliasing facade: maps an address to the value of the
variable living there. -/
abbrev Heap := Nat → Value

/-- Transcription of internals::has_no_duplicates: empty and singleton
packs are accepted; a pack (Head, Second, Tail...) is accepted when Head
and Second differ and both (Head, Tail...) and (Second, Tail...) are
accepted. -/
def has_no_duplicates : List Kind → Bool
  | [] => true
  | [_] => true
  | h :: s :: t => (h != s) && has_no_duplicates (h :: t) && has_no_duplicates (s :: t)
termination_by l => l.length
decreasing_by all_goals simp

/-- Transcription of internals::contains: linear scan of the type_list. -/
def containsT (t : Kind) : List Kind → Bool
  | [] => false
  | h :: tl => (t == h) || containsT t tl

/-- Transcription of the single-exclude specialization of
internals::remove_types: removes every occurrence of one kind, keeping
the survivors in order. -/
def remove_one (e : Kind) : List Kind → List Kind
  | [] => []
  | h :: t => if h == e then remove_one e t else h :: remove_one e t

/-- Transcription of internals::remove_types: folds remove_one over the
exclude pack left to right. -/
def remove_types (l : List Kind) : List Kind → List Kind
  | [] => l
  | e :: es => remove_types (remove_one e l) es

/-- Transcription of internals::get, the positional argument lookup: the
base case takes a single argument of the target kind; the recursive case
returns the head when its kind is the target and recurses otherwise.
Arguments are (kind, value) pairs; a none result corresponds to the
overload set being empty (a build failure in C++).  This is the body of
the overloads only; a call is well-formed exactly under lookup_allowed
below, which transcribes their constraints. -/
def lookup_arg (target : Kind) : List (Kind × Value) → Option Value
  | [] => none
  | [p] => if p.1 == target then some p.2 else none
  | p :: rest => if p.1 == target then some p.2 else lookup_arg target rest

/-- Transcription of the viability of a call to internals::get on a pack
of argument kinds: the single-parameter base overload takes one argument
of the target kind; the recursive overload requires
contains_concept&lt;Target, type_list&lt;Head, Tail...&gt;&gt;, which can only hold
when type_list&lt;Head, Tail...&gt; is well-formed, i.e. when the pack has no
duplicate kind, and contains the target.  A pack with a repeated kind —
in particular more than one argument of the target kind — satisfies
neither overload and the call does not compile. -/
def lookup_allowed (target : Kind) : List Kind → Bool
  | [] => false
  | [k] => k == target
  | kinds => has_no_duplicates kinds && containsT target kinds

/-- Transcription of the storage constructor from raw arguments
(storage::storage(Args const&...)): slot by slot, the value of kind k is
pulled from the argument list through internals::get.  The getD 0 default
is never reached under the contains_all constraint of the constructor. -/
def mk_storage (l : List Kind) (args : List (Kind × Value)) : Storage :=
  l.map (fun k => (k, (lookup_arg k args).getD 0))

/-- Transcription of storage::get: returns the slot of the requested
kind; the single-slot specialization demands an exact kind match, the
recursive case compares the head kind and recurses. -/
def storage_get (u : Kind) : Storage → Option Value
  | [] => none
  | [p] => if p.1 == u then some p.2 else none
  | p :: rest => if p.1 == u then some p.2 else storage_get u rest

/-- Transcription of the merge constructor
storage::storage(storage&lt;ListA&gt; const& a, storage&lt;ListB&gt; const& b)
together with its helper storage::get_head: each slot of the target list
takes the value of its kind from a when ListA contains that kind, and
from b otherwise. -/
def merge_storage (target : List Kind) (a b : Storage) : Storage :=
  target.map (fun k =>
    (k, if containsT k (a.map Prod.fst)
        then (storage_get k a).getD 0
        else (storage_get k b).getD 0))

/-- Transcription of the requires-chain of the merge constructor: every
kind of the target list is contained in ListA or in ListB. -/
def merge_allowed (target aK bK : List Kind) : Bool :=
  match target with
  | [] => true
  | k :: rest => (containsT k aK || containsT k bK) && merge_allowed rest aK bK

/-- Effective kind list of shared_resources&lt;List, Exclude...&gt;: the
private alias list = remove_types&lt;List, Exclude...&gt;. -/
def effective_list (l excl : List Kind) : List Kind :=
  remove_types l excl

/-- Transcription of shared_resources::create_storage: builds a temporary
storage over type_list&lt;Args...&gt; from the extra arguments, then invokes
the merge constructor with the source storage as first operand and the
temporary as second operand. -/
def create_storage (target : List Kind) (other : Storage) (args : List (Kind × Value)) : Storage :=
  merge_storage target other (mk_storage (args.map Prod.fst) args)

/-- Transcription of the value constructor of shared_resources: the
member storage over the effective list is built from the raw arguments. -/
def mk_shared (l excl : List Kind) (args : List (Kind × Value)) : Storage :=
  mk_storage (effective_list l excl) args

/-- Transcription of the extension constructor
shared_resources::shared_resources(Other const&, Args const&...): the
member storage is create_storage of the source member storage and the
extra arguments. -/
def extend_shared (l excl : List Kind) (other : Storage) (args : List (Kind × Value)) : Storage :=
  create_storage (effective_list l excl) other args

/-- Transcription of the shared_references value constructor: the member
shared_resources over the reference_wrapper-ed list stores, for each kind
of the effective list, the reference_wrapper of the matching argument,
i.e. the address of the variable passed for that kind.  Wrapping every
kind with std::reference_wrapper is an injective renaming of kinds, so it
is elided; the pair list maps each kind to the address of its variable. -/
def mk_shared_references (l excl : List Kind) (vars : List (Kind × Nat)) : Storage :=
  mk_storage (effective_list l excl) vars

/-- Transcription of shared_references::get: fetches the
reference_wrapper slot of the requested kind and dereferences it in the
heap. -/
def ref_get (h : Heap) (s : Storage) (k : Kind) : Value :=
  h ((storage_get k s).getD 0)

/-- Pointwise heap update: writing a value to an address. -/
def update_heap (h : Heap) (a : Nat) (v : Value) : Heap :=
  fun x => if x = a then v else h x

/-- Writing through shared_references::get: the returned reference
aliases the external variable, so assignment updates the heap at the
stored address and leaves every container untouched. -/
def ref_mutate (h : Heap) (s : Storage) (k : Kind) (v : Value) : Heap :=
  update_heap h ((storage_get k s).getD 0) v

/-- The copy constructor of shared_references is the default one: it
copies the member shared_resources of reference_wrapper slots, i.e. the
addresses, not the aliased data. -/
def copy_references (s : Storage) : Storage :=
  s

/-- Writing through the owning shared_resources::get: the returned
reference points into the container's own data_ member, so assignment
replaces the slot of the requested kind inside that storage only. -/
def set_storage (s : Storage) (k : Kind) (v : Value) : Storage :=
  match s with
  | [] => []
  | p :: rest => if p.1 == k then (p.1, v) :: rest else p :: set_storage rest k v

/-- Program state for the owning frame property: the heap of external
variables and the member storages of two independent containers. -/
abbrev OwnState := Heap × Storage × Storage

/-- Assignment through get on the first container: per the source, the
reference returned by the owning get leads into that container's data_
chain, so only the first storage component changes. -/
def own_mutate (st : OwnState) (k : Kind) (v : Value) : OwnState :=
  (st.1, set_storage st.2.1 k v, st.2.2)

/-! ### Basic lemmas about the transcribed functions -/

theorem storage_get_cons (u : Kind) (p : Kind × Value) (rest : Storage) :
    storage_get u (p :: rest) = if p.1 == u then some p.2 else storage_get u rest := by
  cases rest with
  | nil => rfl
  | cons q tail => rfl

theorem lookup_arg_cons (u : Kind) (p : Kind × Value) (rest : List (Kind × Value)) :
    lookup_arg u (p :: rest) = if p.1 == u then some p.2 else lookup_arg u rest := by
  cases rest with
  | nil => rfl
  | cons q tail => rfl

theorem containsT_iff_mem (k : Kind) (l : List Kind) : containsT k l = true ↔ k ∈ l := by
  induction l with
  | nil => simp [containsT]
  | cons h t ih => simp only [containsT, Bool.or_eq_true, beq_iff_eq, ih, List.mem_cons]

theorem has_no_duplicates_eq_pairwise (l : List Kind) :
    has_no_duplicates l = true ↔ l.Pairwise (fun a b => a ≠ b) := by
  induction l using has_no_duplicates.induct with
  | case1 => simp [has_no_duplicates]
  | case2 x => simp [has_no_duplicates]
  | case3 h s t ih1 ih2 =>
    rw [has_no_duplicates]
    simp only [Bool.and_eq_true, bne_iff_ne, ne_eq, List.pairwise_cons] at *
    constructor
    · rintro ⟨⟨hhs, hht⟩, hst⟩
      have h1 := ih1.mp hht
      have h2 := ih2.mp hst
      refine ⟨?_, h2⟩
      intro b hb
      rcases List.mem_cons.mp hb with hb1 | hb1
      · subst hb1; exact hhs
      · exact h1.1 b hb1
    · rintro ⟨hh, hs2, ht⟩
      refine ⟨⟨hh s (List.mem_cons_self s t), ?_⟩, ih2.mpr ⟨hs2, ht⟩⟩
      apply ih1.mpr
      refine ⟨?_, ht⟩
      intro b hb
      exact hh b (List.mem_cons_of_mem s hb)

theorem lookup_arg_of_mem (args : List (Kind × Value)) (k : Kind) (v : Value)
    (hnd : (args.map Prod.fst).Pairwise (fun a b => a ≠ b)) (hmem : (k, v) ∈ args) :
    lookup_arg k args = some v := by
  induction args with
  | nil => simp at hmem
  | cons p rest ih =>
    rw [lookup_arg_cons]
    simp only [List.map_cons, List.pairwise_cons] at hnd
    rcases List.mem_cons.mp hmem with hp | hp
    · subst hp; simp
    · have hk : p.1 ≠ k := by
        intro he
        exact hnd.1 k (List.mem_map.mpr ⟨(k, v), hp, rfl⟩) he
      simp only [beq_iff_eq, hk, if_false]
      exact ih hnd.2 hp

theorem mk_storage_map_fst (l : List Kind) (args : List (Kind × Value)) :
    (mk_storage l args).map Prod.fst = l := by
  induction l with
  | nil => rfl
  | cons h t ih =>
    simp only [mk_storage, List.map_cons] at ih ⊢
    rw [ih]

theorem storage_get_mk_storage (l : List Kind) (args : List (Kind × Value)) (k : Kind)
    (hk : containsT k l = true) :
    storage_get k (mk_storage l args) = some ((lookup_arg k args).getD 0) := by
  induction l with
  | nil => simp [containsT] at hk
  | cons h t ih =>
    simp only [mk_storage, List.map_cons]
    rw [storage_get_cons]
    by_cases hcase : h = k
    · simp [hcase]
    · simp only [beq_iff_eq, hcase, if_false]
      simp only [containsT, Bool.or_eq_true, beq_iff_eq] at hk
      rcases hk with hk | hk
      · exact absurd hk.symm hcase
      · exact ih hk

theorem storage_get_isSome (s : Storage) (k : Kind)
    (hk : containsT k (s.map Prod.fst) = true) : ∃ v, storage_get k s = some v := by
  induction s with
  | nil => simp [containsT] at hk
  | cons p rest ih =>
    rw [storage_get_cons]
    by_cases hcase : p.1 = k
    · exact ⟨p.2, by simp [hcase]⟩
    · simp only [beq_iff_eq, hcase, if_false]
      simp only [List.map_cons, containsT, Bool.or_eq_true, beq_iff_eq] at hk
      rcases hk with hk | hk
      · exact absurd hk.symm hcase
      · exact ih hk

theorem storage_get_merge (target : List Kind) (a b : Storage) (k : Kind)
    (hk : containsT k target = true) :
    storage_get k (merge_storage target a b) =
      some (if containsT k (a.map Prod.fst)
            then (storage_get k a).getD 0
            else (storage_get k b).getD 0) := by
  induction target with
  | nil => simp [containsT] at hk
  | cons h t ih =>
    simp only [merge_storage, List.map_cons]
    rw [storage_get_cons]
    by_cases hcase : h = k
    · simp [hcase]
    · simp only [beq_iff_eq, hcase, if_false]
      simp only [containsT, Bool.or_eq_true, beq_iff_eq] at hk
      rcases hk with hk | hk
      · exact absurd hk.symm hcase
      · exact ih hk

theorem merge_allowed_contains (target aK bK : List Kind) (k : Kind)
    (h : merge_allowed target aK bK = true) (hk : containsT k target = true) :
    containsT k aK = true ∨ containsT k bK = true := by
  induction target with
  | nil => simp [containsT] at hk
  | cons h0 t ih =>
    simp only [merge_allowed, Bool.and_eq_true, Bool.or_eq_true] at h
    simp only [containsT, Bool.or_eq_true, beq_iff_eq] at hk
    rcases hk with hk | hk
    · subst hk; exact h.1
    · exact ih h.2 hk

theorem storage_get_set_storage (s : Storage) (k : Kind) (v : Value)
    (hk : containsT k (s.map Prod.fst) = true) :
    storage_get k (set_storage s k v) = some v := by
  induction s with
  | nil => simp [containsT] at hk
  | cons p rest ih =>
    simp only [set_storage]
    by_cases hc : p.1 = k
    · simp only [hc, beq_self_eq_true, if_true]
      rw [storage_get_cons]
      simp [hc]
    · simp only [beq_iff_eq, hc, if_false]
      rw [storage_get_cons]
      simp only [beq_iff_eq, hc, if_false]
      simp only [List.map_cons, containsT, Bool.or_eq_true, beq_iff_eq] at hk
      rcases hk with hk | hk
      · exact absurd hk.symm hc
      · exact ih hk

theorem remove_one_eq_filter (x : Kind) (s : List Kind) :
    remove_one x s = s.filter (fun y => y != x) := by
  induction s with
  | nil => rfl
  | cons h t ih =>
    simp only [remove_one, List.filter_cons, bne_iff_ne, ne_eq]
    by_cases hc : h = x <;> simp [hc, ih]

theorem remove_types_eq_foldl (e s : List Kind) :
    remove_types s e = e.foldl (fun acc z => acc.filter (fun y => y != z)) s := by
  induction e generalizing s with
  | nil => rfl
  | cons z es ih =>
    simp only [remove_types, List.foldl_cons]
    rw [ih, remove_one_eq_filter]

/-! ### The claims -/

/-- Claim C1, counterexample: let container A hold kinds 0 and 1 with
values 1 and 2, and extend it with the extra argument (kind 0, value 5).
Kind 0 is supplied both by A and by the extras, yet the extended
container's slot of kind 0 holds A's original value 1, not the extra
value 5: the claim that the extra value is returned is false on the
code, because create_storage passes the source storage as the first
(winning) merge operand. -/
theorem extension_source_wins_cex :
    storage_get 0 (extend_shared [0, 1] [] (mk_shared [0, 1] [] [(0, 1), (1, 2)]) [(0, 5)]) =
      some 1 ∧
    storage_get 0 (mk_shared [0, 1] [] [(0, 1), (1, 2)]) = some 1 ∧
    containsT 0 ((mk_shared [0, 1] [] [(0, 1), (1, 2)]).map Prod.fst) = true ∧
    containsT 0 (([((0 : Kind), (5 : Value))]).map Prod.fst) = true ∧
    storage_get 0 (extend_shared [0, 1] [] (mk_shared [0, 1] [] [(0, 1), (1, 2)]) [(0, 5)]) ≠
      some 5 := by
  decide

/-- Claim C1, amended: for every kind supplied both by the source
container A and by the extra values, the extension constructor yields a
container whose slot for that kind holds A's original value; the extra
value is used only for kinds A does not provide. -/
theorem extension_prefers_existing (l excl : List Kind) (other : Storage)
    (args : List (Kind × Value)) (k : Kind)
    (hk : containsT k (effective_list l excl) = true)
    (ho : containsT k (other.map Prod.fst) = true) :
    storage_get k (extend_shared l excl other args) = storage_get k other := by
  unfold extend_shared create_storage
  rw [storage_get_merge _ _ _ _ hk]
  obtain ⟨v, hv⟩ := storage_get_isSome other k ho
  simp [ho, hv]

/-- Witness for the amended C1 at a concrete input. -/
theorem extension_prefers_existing_witness :
    containsT 0 (effective_list [0, 1] []) = true ∧
    containsT 0 ((mk_shared [0, 1] [] [(0, 1), (1, 2)]).map Prod.fst) = true ∧
    storage_get 0 (extend_shared [0, 1] [] (mk_shared [0, 1] [] [(0, 1), (1, 2)]) [(0, 5)]) =
      storage_get 0 (mk_shared [0, 1] [] [(0, 1), (1, 2)]) :=
  ⟨by decide, by decide,
    extension_prefers_existing [0, 1] [] (mk_shared [0, 1] [] [(0, 1), (1, 2)]) [(0, 5)] 0
      (by decide) (by decide)⟩

/-- Claim C2: merging storages a and b over a target list every kind of
which is provided by a or by b fills each target slot with a's value
when a's kind list contains that kind, and with b's value otherwise;
a always wins when both provide the kind. -/
theorem merge_storage_prefers_a (target : List Kind) (a b : Storage) (k : Kind)
    (hall : merge_allowed target (a.map Prod.fst) (b.map Prod.fst) = true)
    (hk : containsT k target = true) :
    storage_get k (merge_storage target a b) =
      if containsT k (a.map Prod.fst) then storage_get k a else storage_get k b := by
  rw [storage_get_merge _ _ _ _ hk]
  by_cases hc : containsT k (a.map Prod.fst) = true
  · obtain ⟨v, hv⟩ := storage_get_isSome a k hc
    simp [hc, hv]
  · have hb : containsT k (b.map Prod.fst) = true := by
      rcases merge_allowed_contains _ _ _ _ hall hk with h | h
      · exact absurd h hc
      · exact h
    obtain ⟨v, hv⟩ := storage_get_isSome b k hb
    simp [hc, hv]

/-- Witness for C2 at a concrete input: both storages provide kind 0 and
the merge takes the first storage's value. -/
theorem merge_storage_prefers_a_witness :
    merge_allowed [0, 2] ([(0, 1), (1, 2)].map Prod.fst) ([(0, 5), (2, 7)].map Prod.fst) =
      true ∧
    containsT 0 [0, 2] = true ∧
    storage_get 0 (merge_storage [0, 2] [(0, 1), (1, 2)] [(0, 5), (2, 7)]) =
      if containsT 0 ([((0 : Kind), (1 : Value)), (1, 2)].map Prod.fst)
      then storage_get 0 [(0, 1), (1, 2)] else storage_get 0 [(0, 5), (2, 7)] :=
  ⟨by decide, by decide,
    merge_storage_prefers_a [0, 2] [(0, 1), (1, 2)] [(0, 5), (2, 7)] 0 (by decide) (by decide)⟩

/-- Claim C4: a container constructed from raw arguments with pairwise
distinct kinds covering the effective list returns, for each kind of the
effective list, exactly the argument value supplied for that kind; the
membership hypothesis is independent of the argument order, so the
result does not depend on where in the list the argument was passed. -/
theorem shared_resources_roundtrip (l excl : List Kind) (args : List (Kind × Value))
    (k : Kind) (v : Value)
    (hnd : has_no_duplicates (args.map Prod.fst) = true)
    (hk : containsT k (effective_list l excl) = true)
    (hmem : (k, v) ∈ args) :
    storage_get k (mk_shared l excl args) = some v := by
  unfold mk_shared
  rw [storage_get_mk_storage _ _ _ hk,
    lookup_arg_of_mem args k v ((has_no_duplicates_eq_pairwise _).mp hnd) hmem]
  rfl

/-- Witness for C4: a four-kind container built from shuffled arguments
still returns the value supplied for kind 1. -/
theorem shared_resources_roundtrip_witness :
    has_no_duplicates ([(2, 30), (0, 10), (3, 40), (1, 20)].map Prod.fst) = true ∧
    containsT 1 (effective_list [0, 1, 2, 3] []) = true ∧
    ((1 : Kind), (20 : Value)) ∈ [(2, 30), (0, 10), (3, 40), (1, 20)] ∧
    storage_get 1 (mk_shared [0, 1, 2, 3] [] [(2, 30), (0, 10), (3, 40), (1, 20)]) =
      some 20 :=
  ⟨by simp [has_no_duplicates], by decide, by decide,
    shared_resources_roundtrip [0, 1, 2, 3] [] [(2, 30), (0, 10), (3, 40), (1, 20)] 1 20
      (by simp [has_no_duplicates]) (by decide) (by decide)⟩

/-- Claim C5: when a container's storage covers a permutation of the
target's effective list, converting through the extension constructor
with no extra arguments loses nothing: every kind of the target list
reads the same value in the converted container as in the original. -/
theorem conversion_perm_lossless (l excl : List Kind) (s : Storage) (k : Kind)
    (hperm : (s.map Prod.fst).Perm (effective_list l excl))
    (hk : containsT k (effective_list l excl) = true) :
    storage_get k (extend_shared l excl s []) = storage_get k s := by
  unfold extend_shared create_storage
  rw [storage_get_merge _ _ _ _ hk]
  have hs : containsT k (s.map Prod.fst) = true := by
    rw [containsT_iff_mem]
    exact hperm.mem_iff.mpr ((containsT_iff_mem k _).mp hk)
  obtain ⟨v, hv⟩ := storage_get_isSome s k hs
  simp [hs, hv]

/-- Witness for C5: a storage over kinds 0, 1 converted to the reversed
declaration order keeps the value of kind 0. -/
theorem conversion_perm_lossless_witness :
    ([((0 : Kind), (3 : Value)), (1, 4)].map Prod.fst).Perm (effective_list [1, 0] []) ∧
    containsT 0 (effective_list [1, 0] []) = true ∧
    storage_get 0 (extend_shared [1, 0] [] [(0, 3), (1, 4)] []) =
      storage_get 0 [(0, 3), (1, 4)] :=
  ⟨by decide, by decide,
    conversion_perm_lossless [1, 0] [] [(0, 3), (1, 4)] 0 (by decide) (by decide)⟩

/-- Claim C6: in a reference container built over external variables
(each kind paired with the address of its variable), writing a value
through get for a kind of the effective list updates the heap at the
address of the originally aliased variable, and a copy of the container
(the default copy, which copies the reference_wrapper slots) reads the
new value through get afterwards. -/
theorem ref_mutation_visible (l excl : List Kind) (vars : List (Kind × Nat)) (h : Heap)
    (k : Kind) (a : Nat) (v : Value)
    (hnd : has_no_duplicates (vars.map Prod.fst) = true)
    (hk : containsT k (effective_list l excl) = true)
    (hmem : (k, a) ∈ vars) :
    ref_mutate h (mk_shared_references l excl vars) k v a = v ∧
    ref_get (ref_mutate h (mk_shared_references l excl vars) k v)
      (copy_references (mk_shared_references l excl vars)) k = v := by
  have hget : storage_get k (mk_shared_references l excl vars) = some a := by
    unfold mk_shared_references
    rw [storage_get_mk_storage _ _ _ hk,
      lookup_arg_of_mem vars k a ((has_no_duplicates_eq_pairwise _).mp hnd) hmem]
    rfl
  constructor
  · simp [ref_mutate, update_heap, hget]
  · simp [ref_get, copy_references, ref_mutate, update_heap, hget]

/-- Witness for C6: aliasing the variable at address 10 for kind 0 and
writing 7 through the container updates that variable, and the copy
reads 7. -/
theorem ref_mutation_visible_witness :
    has_no_duplicates ([((0 : Kind), (10 : Nat)), (1, 11)].map Prod.fst) = true ∧
    containsT 0 (effective_list [0, 1] []) = true ∧
    ((0 : Kind), (10 : Nat)) ∈ [((0 : Kind), (10 : Nat)), (1, 11)] ∧
    ref_mutate (fun x => x) (mk_shared_references [0, 1] [] [(0, 10), (1, 11)]) 0 7 10 = 7 ∧
    ref_get (ref_mutate (fun x => x) (mk_shared_references [0, 1] [] [(0, 10), (1, 11)]) 0 7)
      (copy_references (mk_shared_references [0, 1] [] [(0, 10), (1, 11)])) 0 = 7 := by
  refine ⟨by simp [has_no_duplicates], by decide, by decide, ?_⟩
  exact ref_mutation_visible [0, 1] [] [(0, 10), (1, 11)] (fun x => x) 0 10 7
    (by simp [has_no_duplicates]) (by decide) (by decide)

/-- Claim C7: the duplicate check accepts the empty and singleton packs,
computes the documented three-way conjunction on longer packs, and
accepts exactly the pairwise-distinct kind sequences, so duplicates are
detected anywhere, not only adjacently. -/
theorem duplicate_check_pairwise (x h s : Kind) (t l : List Kind) :
    has_no_duplicates [] = true ∧
    has_no_duplicates [x] = true ∧
    has_no_duplicates (h :: s :: t) =
      ((h != s) && has_no_duplicates (h :: t) && has_no_duplicates (s :: t)) ∧
    (has_no_duplicates l = true ↔ l.Pairwise (fun a b => a ≠ b)) := by
  refine ⟨by simp [has_no_duplicates], by simp [has_no_duplicates], ?_,
    has_no_duplicates_eq_pairwise l⟩
  rw [has_no_duplicates]

/-- Claim C8: a single-kind exclusion removes all matching entries while
keeping the survivors in their original order (it is the order-preserving
filter), and remove_types folds the single-kind exclusion over the
exclude pack left to right. -/
theorem exclusion_fold_filter (s e : List Kind) (x : Kind) :
    remove_one x s = s.filter (fun y => y != x) ∧
    remove_types s e = e.foldl (fun acc z => acc.filter (fun y => y != z)) s :=
  ⟨remove_one_eq_filter x s, remove_types_eq_foldl e s⟩

theorem map_fst_seed (h : Heap) (vars : List (Kind × Nat)) :
    (vars.map (fun p => (p.1, h p.2))).map Prod.fst = vars.map Prod.fst := by
  induction vars with
  | nil => rfl
  | cons p t ih => simp only [List.map_cons, ih]

/-- Claim C9: an owning container seeded from external variables copies
their current values: its slot for a kind of the effective list holds
the value, not the address; assigning through the owning get touches only
that container's storage, so the heap (hence the seeding variable) and
any other container's storage are unchanged, while the mutated slot holds
the new value. -/
theorem own_mutation_frame (l excl : List Kind) (vars : List (Kind × Nat)) (h : Heap)
    (t : Storage) (k : Kind) (a : Nat) (v : Value)
    (hnd : has_no_duplicates (vars.map Prod.fst) = true)
    (hk : containsT k (effective_list l excl) = true)
    (hmem : (k, a) ∈ vars) :
    storage_get k (mk_shared l excl (vars.map (fun p => (p.1, h p.2)))) = some (h a) ∧
    (own_mutate (h, mk_shared l excl (vars.map (fun p => (p.1, h p.2))), t) k v).1 a = h a ∧
    (own_mutate (h, mk_shared l excl (vars.map (fun p => (p.1, h p.2))), t) k v).2.2 = t ∧
    storage_get k
      (own_mutate (h, mk_shared l excl (vars.map (fun p => (p.1, h p.2))), t) k v).2.1 =
      some v := by
  have hnd2 : ((vars.map (fun p => (p.1, h p.2))).map Prod.fst).Pairwise
      (fun a b => a ≠ b) := by
    rw [map_fst_seed]
    exact (has_no_duplicates_eq_pairwise _).mp hnd
  have hmem2 : (k, h a) ∈ vars.map (fun p => (p.1, h p.2)) :=
    List.mem_map.mpr ⟨(k, a), hmem, rfl⟩
  refine ⟨?_, rfl, rfl, ?_⟩
  · unfold mk_shared
    rw [storage_get_mk_storage _ _ _ hk, lookup_arg_of_mem _ _ _ hnd2 hmem2]
    rfl
  · show storage_get k (set_storage (mk_shared l excl _) k v) = some v
    apply storage_get_set_storage
    unfold mk_shared
    rw [mk_storage_map_fst]
    exact hk

/-- Witness for C9: seeding from the heap fun x => x + 1, the container
holds the copied value 11 for kind 0; writing 7 through the container
leaves the heap and the other container untouched and stores 7. -/
theorem own_mutation_frame_witness :
    has_no_duplicates ([((0 : Kind), (10 : Nat)), (1, 11)].map Prod.fst) = true ∧
    containsT 0 (effective_list [0, 1] []) = true ∧
    ((0 : Kind), (10 : Nat)) ∈ [((0 : Kind), (10 : Nat)), (1, 11)] ∧
    (storage_get 0
        (mk_shared [0, 1] [] ([((0 : Kind), (10 : Nat)), (1, 11)].map
          (fun p => (p.1, (fun x => x + 1) p.2)))) = some ((fun x => x + 1) 10) ∧
      (own_mutate ((fun x => x + 1),
          mk_shared [0, 1] [] ([((0 : Kind), (10 : Nat)), (1, 11)].map
            (fun p => (p.1, (fun x => x + 1) p.2))), [(0, 99)]) 0 7).1 10 =
        (fun x => x + 1) 10 ∧
      (own_mutate ((fun x => x + 1),
          mk_shared [0, 1] [] ([((0 : Kind), (10 : Nat)), (1, 11)].map
            (fun p => (p.1, (fun x => x + 1) p.2))), [(0, 99)]) 0 7).2.2 = [(0, 99)] ∧
      storage_get 0
        (own_mutate ((fun x => x + 1),
          mk_shared [0, 1] [] ([((0 : Kind), (10 : Nat)), (1, 11)].map
            (fun p => (p.1, (fun x => x + 1) p.2))), [(0, 99)]) 0 7).2.1 = some 7) := by
  refine ⟨by simp [has_no_duplicates], by decide, by decide, ?_⟩
  exact own_mutation_frame [0, 1] [] [(0, 10), (1, 11)] (fun x => x + 1) [(0, 99)] 0 10 7
    (by simp [has_no_duplicates]) (by decide) (by decide)

theorem lookup_arg_find_of_contains (args : List (Kind × Value)) (k : Kind)
    (hmem : containsT k (args.map Prod.fst) = true) :
    ∃ p, args.find? (fun q => q.1 == k) = some p ∧ p.1 = k ∧
      lookup_arg k args = some p.2 := by
  induction args with
  | nil => simp [containsT] at hmem
  | cons p rest ih =>
    by_cases hc : p.1 = k
    · refine ⟨p, ?_, hc, ?_⟩
      · exact List.find?_cons_of_pos _ (by simp [hc])
      · rw [lookup_arg_cons]
        simp [hc]
    · have hr : containsT k (rest.map Prod.fst) = true := by
        simp only [List.map_cons, containsT, Bool.or_eq_true, beq_iff_eq] at hmem
        rcases hmem with hmem | hmem
        · exact absurd hmem.symm hc
        · exact hmem
      obtain ⟨p2, h1, h2, h3⟩ := ih hr
      refine ⟨p2, ?_, h2, ?_⟩
      · rw [List.find?_cons_of_neg _ (by simp [hc])]
        exact h1
      · rw [lookup_arg_cons]
        simp only [beq_iff_eq, hc, if_false]
        exact h3

theorem mem_unique_of_pairwise (args : List (Kind × Value)) (p q : Kind × Value)
    (hnd : (args.map Prod.fst).Pairwise (fun a b => a ≠ b))
    (hp : p ∈ args) (hq : q ∈ args) (heq : p.1 = q.1) : p = q := by
  induction args with
  | nil => simp at hp
  | cons a rest ih =>
    simp only [List.map_cons, List.pairwise_cons] at hnd
    rcases List.mem_cons.mp hp with hp1 | hp1
    · subst hp1
      rcases List.mem_cons.mp hq with hq1 | hq1
      · exact hq1.symm
      · exact absurd heq (hnd.1 q.1 (List.mem_map.mpr ⟨q, hq1, rfl⟩))
    · rcases List.mem_cons.mp hq with hq1 | hq1
      · subst hq1
        exact absurd heq.symm (hnd.1 p.1 (List.mem_map.mpr ⟨p, hp1, rfl⟩))
      · exact ih hnd.2 hp1 hq1

theorem lookup_allowed_parts (target : Kind) (kinds : List Kind)
    (h : lookup_allowed target kinds = true) :
    has_no_duplicates kinds = true ∧ containsT target kinds = true := by
  match kinds with
  | [] => simp [lookup_allowed] at h
  | [k] =>
    simp only [lookup_allowed, beq_iff_eq] at h
    subst h
    exact ⟨by simp [has_no_duplicates], by simp [containsT]⟩
  | a :: b :: t =>
    simp only [lookup_allowed, Bool.and_eq_true] at h
    exact h

/-- Claim C10, counterexample: the argument pack (kind 0, value 1),
(kind 0, value 2) holds two arguments of the target kind 0, so at least
one is present, yet no overload of internals::get is viable for it: the
recursive overload requires forming type_list of the pack's kinds, which
the duplicate kind 0 forbids.  The call does not compile, so the lookup
is neither total at this pack nor able to return a leftmost match. -/
theorem lookup_duplicate_pack_rejected_cex :
    (([((0 : Kind), (1 : Value)), (0, 2)]).filter (fun q => q.1 == 0)).length = 2 ∧
    containsT 0 ([((0 : Kind), (1 : Value)), (0, 2)].map Prod.fst) = true ∧
    lookup_allowed 0 ([((0 : Kind), (1 : Value)), (0, 2)].map Prod.fst) = false := by
  refine ⟨by decide, by decide, ?_⟩
  simp [lookup_allowed, has_no_duplicates]

/-- Claim C10, amended: a call to the positional lookup internals::get is
well-formed exactly under its constraints — the argument kinds are
pairwise distinct and contain the target — so a pack with more than one
argument of the target kind is rejected at build time and the exactly-one
precondition stands; under those constraints the lookup is total and
returns the argument of the target kind, which is both the first
(leftmost) match and the unique one. -/
theorem lookup_arg_allowed_unique (args : List (Kind × Value)) (k : Kind)
    (hallow : lookup_allowed k (args.map Prod.fst) = true) :
    ∃ p, args.find? (fun q => q.1 == k) = some p ∧ p.1 = k ∧
      lookup_arg k args = some p.2 ∧ ∀ q ∈ args, q.1 = k → q = p := by
  obtain ⟨hnd, hmem⟩ := lookup_allowed_parts k (args.map Prod.fst) hallow
  obtain ⟨p, h1, h2, h3⟩ := lookup_arg_find_of_contains args k hmem
  refine ⟨p, h1, h2, h3, ?_⟩
  intro q hq hqk
  exact mem_unique_of_pairwise args q p ((has_no_duplicates_eq_pairwise _).mp hnd)
    hq (List.mem_of_find?_eq_some h1) (by rw [hqk, h2])

/-- Witness for the amended C10: a distinct two-kind pack containing the
target kind 0 passes the constraint and the lookup returns its unique
argument of kind 0. -/
theorem lookup_arg_allowed_unique_witness :
    lookup_allowed 0 ([((1 : Kind), (5 : Value)), (0, 9)].map Prod.fst) = true ∧
    ∃ p, [((1 : Kind), (5 : Value)), (0, 9)].find? (fun q => q.1 == 0) = some p ∧
      p.1 = 0 ∧ lookup_arg 0 [((1 : Kind), (5 : Value)), (0, 9)] = some p.2 ∧
      ∀ q ∈ [((1 : Kind), (5 : Value)), (0, 9)], q.1 = 0 → q = p :=
  ⟨by simp [lookup_allowed, has_no_duplicates, containsT],
    lookup_arg_allowed_unique [((1 : Kind), (5 : Value)), (0, 9)] 0
      (by simp [lookup_allowed, has_no_duplicates, containsT])⟩

end Srs
